import Mathlib

/-!
Shallow embedding of the group-based rate limit filter pipeline
(`examples/filters/rate_limit_filter_pipeline.py`).

Timestamps (`time.time()` values) are modelled as integers (the code only
subtracts timestamps and compares the result against window lengths, so no
arithmetic here depends on fractional clock values), numeric limit
fields (Python `Optional[int]`) as `Option ℤ`, the `user_requests` dict as a
function `String → Option (List ℤ)` (`none` = key absent), and a Python
`TypeError` (e.g. comparing an `int` with `None`, or `None * 60`) as
`Except.error ()`.  The `Exception` raised by `inlet` on a rate-limit hit is
a distinct `PyError` constructor carrying the message string.

The Python code calls `time.time()` separately inside `prune_requests`,
`rate_limited`, `log_request` and `check_which_limit_exceeded`; here a single
`now` value is passed through one admission, the same-snapshot reading the
spec requires of one evaluation.
-/

namespace RateLimitFilter

/-- The resolved rate-limit dict built by `get_user_limits`; `none` models
Python `None`. -/
structure Limits where
  requests_per_minute : Option ℤ
  requests_per_hour : Option ℤ
  sliding_window_limit : Option ℤ
  sliding_window_minutes : Option ℤ
deriving DecidableEq, Repr

/-- The `Valves` pydantic model of the pipeline. -/
structure Valves where
  pipelines : List String
  priority : ℤ
  default_requests_per_minute : Option ℤ
  default_requests_per_hour : Option ℤ
  default_sliding_window_limit : Option ℤ
  default_sliding_window_minutes : Option ℤ
  silver_requests_per_minute : Option ℤ
  silver_requests_per_hour : Option ℤ
  silver_sliding_window_limit : Option ℤ
  silver_sliding_window_minutes : Option ℤ
  gold_requests_per_minute : Option ℤ
  gold_requests_per_hour : Option ℤ
  gold_sliding_window_limit : Option ℤ
  gold_sliding_window_minutes : Option ℤ
deriving DecidableEq, Repr

/-- The field defaults declared on the `Valves` `BaseModel`. -/
def defaultValves : Valves :=
  ⟨["*"], 0,
   some 5, some 50, some 25, some 15,
   some 20, some 300, some 100, some 15,
   some 40, some 1000, some 200, some 15⟩

/-- The `user` dict passed to `inlet`: optional `id`, `role` and `groups`
keys (`none` = key absent). -/
structure User where
  id : Option String
  role : Option String
  groups : Option (List String)
deriving DecidableEq, Repr

/-- The `self.user_requests` dict: identity key to list of request
timestamps; `none` means the key is absent. -/
abbrev UserRequests := String → Option (List ℤ)

/-- Store a timestamp list under a key (`self.user_requests[user_id] = l`). -/
def setReqs (st : UserRequests) (uid : String) (l : List ℤ) : UserRequests :=
  fun k => if k = uid then some l else st k

/-- Errors observable from `inlet`: a Python `TypeError` escaping the
limit arithmetic, or the `Exception(error_msg)` raised on a rate-limit hit. -/
inductive PyError where
  | typeError : PyError
  | exception : String → PyError
deriving DecidableEq, Repr

/-- One `sum(1 for req in user_reqs if now - req < window)` count. -/
def countWithin (reqs : List ℤ) (now window : ℤ) : ℕ :=
  (reqs.filter (fun t => now - t < window)).length

/-- The filter condition of the list comprehension in `prune_requests`,
for a single timestamp `req`.  The third disjunct multiplies
`sliding_window_minutes` by 60, a `TypeError` when it is `None` (reached
only when `sliding_window_limit` is set and the first two disjuncts are
false, matching Python's short-circuit evaluation). -/
def keepReq (limits : Limits) (now req : ℤ) : Except Unit Bool :=
  if limits.requests_per_minute.isSome && decide (now - req < 60) then Except.ok true
  else if limits.requests_per_hour.isSome && decide (now - req < 3600) then Except.ok true
  else
    match limits.sliding_window_limit with
    | none => Except.ok false
    | some _ =>
      match limits.sliding_window_minutes with
      | none => Except.error ()
      | some wm => Except.ok (decide (now - req < wm * 60))

/-- The list comprehension of `prune_requests`, element by element. -/
def pruneList (limits : Limits) (now : ℤ) : List ℤ → Except Unit (List ℤ)
  | [] => Except.ok []
  | req :: rest =>
    match keepReq limits now req with
    | Except.error e => Except.error e
    | Except.ok b =>
      match pruneList limits now rest with
      | Except.error e => Except.error e
      | Except.ok rest2 => Except.ok (if b then req :: rest2 else rest2)

/-- `Pipeline.prune_requests`: rebuild the key's list from the comprehension
when the key is present; no-op otherwise.  On a `TypeError` the dict is left
unchanged (the comprehension is evaluated before the assignment). -/
def prune_requests (st : UserRequests) (uid : String) (limits : Limits) (now : ℤ) :
    Except Unit UserRequests :=
  match st uid with
  | none => Except.ok st
  | some reqs =>
    match pruneList limits now reqs with
    | Except.error e => Except.error e
    | Except.ok l => Except.ok (setReqs st uid l)

/-- `Pipeline.log_request`: create the key if absent, then append `now`. -/
def log_request (st : UserRequests) (uid : String) (now : ℤ) : UserRequests :=
  setReqs st uid ((st uid).getD [] ++ [now])

/-- The minute check of `rate_limited` (guarded by `is not None`). -/
def minuteHit (limits : Limits) (reqs : List ℤ) (now : ℤ) : Bool :=
  match limits.requests_per_minute with
  | none => false
  | some m => decide ((countWithin reqs now 60 : ℤ) ≥ m)

/-- The hour check of `rate_limited` (guarded by `is not None`). -/
def hourHit (limits : Limits) (reqs : List ℤ) (now : ℤ) : Bool :=
  match limits.requests_per_hour with
  | none => false
  | some h => decide ((countWithin reqs now 3600 : ℤ) ≥ h)

/-- `Pipeline.rate_limited`: prune, then check minute, hour and sliding
window in order against the pruned history.  Returns the decision together
with the dict as mutated by the prune.  Computing the sliding window length
with `sliding_window_minutes = None` is a `TypeError`. -/
def rate_limited (st : UserRequests) (uid : String) (limits : Limits) (now : ℤ) :
    Except Unit (Bool × UserRequests) :=
  match prune_requests st uid limits now with
  | Except.error e => Except.error e
  | Except.ok st2 =>
    let reqs := (st2 uid).getD []
    if minuteHit limits reqs now then Except.ok (true, st2)
    else if hourHit limits reqs now then Except.ok (true, st2)
    else
      match limits.sliding_window_limit with
      | none => Except.ok (false, st2)
      | some s =>
        match limits.sliding_window_minutes with
        | none => Except.error ()
        | some wm =>
          if (countWithin reqs now (wm * 60) : ℤ) ≥ s then Except.ok (true, st2)
          else Except.ok (false, st2)

/-- `Pipeline.check_which_limit_exceeded`: unlike `rate_limited`, each
threshold is compared with no `is not None` guard, so an absent
(`None`) threshold reached by the cascade is a `TypeError`
(`int >= None`, or `None * 60` for the window length). -/
def check_which_limit_exceeded (st : UserRequests) (uid : String) (limits : Limits) (now : ℤ) :
    Except Unit String :=
  let reqs := (st uid).getD []
  match limits.requests_per_minute with
  | none => Except.error ()
  | some m =>
    if (countWithin reqs now 60 : ℤ) ≥ m then Except.ok "minute"
    else
      match limits.requests_per_hour with
      | none => Except.error ()
      | some h =>
        if (countWithin reqs now 3600 : ℤ) ≥ h then Except.ok "hour"
        else
          match limits.sliding_window_minutes with
          | none => Except.error ()
          | some wm =>
            match limits.sliding_window_limit with
            | none => Except.error ()
            | some s =>
              if (countWithin reqs now (wm * 60) : ℤ) ≥ s then
                Except.ok ("sliding window (" ++ toString wm ++ " minutes)")
              else Except.ok "none"

/-- The default-user limits dict of `get_user_limits`. -/
def defaultLimits (v : Valves) : Limits :=
  ⟨v.default_requests_per_minute, v.default_requests_per_hour,
   v.default_sliding_window_limit, v.default_sliding_window_minutes⟩

/-- The Silver-plan limits dict of `get_user_limits`. -/
def silverLimits (v : Valves) : Limits :=
  ⟨v.silver_requests_per_minute, v.silver_requests_per_hour,
   v.silver_sliding_window_limit, v.silver_sliding_window_minutes⟩

/-- The Gold-plan limits dict of `get_user_limits`. -/
def goldLimits (v : Valves) : Limits :=
  ⟨v.gold_requests_per_minute, v.gold_requests_per_hour,
   v.gold_sliding_window_limit, v.gold_sliding_window_minutes⟩

/-- `Pipeline.get_user_limits`: defaults unless the user has a non-empty
`groups` list; the Silver assignment happens first, the Gold check runs
after it and overrides it.  (A Python `None` user and an empty/groupless
user dict alike fall through to the defaults, since the truthiness guard
`user and "groups" in user and user["groups"]` fails in each case.) -/
def get_user_limits (v : Valves) (user : Option User) : Limits :=
  match user with
  | none => defaultLimits v
  | some u =>
    match u.groups with
    | none => defaultLimits v
    | some gs =>
      if gs.isEmpty then defaultLimits v
      else
        let l1 := if gs.contains "Silver" then silverLimits v else defaultLimits v
        if gs.contains "Gold" then goldLimits v else l1

/-- `Pipeline.get_user_group`. -/
def get_user_group (user : Option User) : String :=
  match user with
  | none => "Default"
  | some u =>
    match u.groups with
    | none => "Default"
    | some gs =>
      if gs.isEmpty then "Default"
      else if gs.contains "Gold" then "Gold"
      else if gs.contains "Silver" then "Silver"
      else "Default"

/-- The `user.get("role") == "admin"` test of `inlet` (a `None` or empty
user dict is falsy and has no role). -/
def isAdmin (user : Option User) : Bool :=
  match user with
  | none => false
  | some u => u.role == some "admin"

/-- The `user_id = user["id"] if user and "id" in user else "default_user"`
line of `inlet`. -/
def userId (user : Option User) : String :=
  match user with
  | none => "default_user"
  | some u => u.id.getD "default_user"

/-- The Gold-group error message f-string of `inlet`. -/
def goldErrorMsg (dim : String) : String :=
  "Usage limit reached: You've hit your " ++ dim ++
    " request limit. Please wait until the limit resets."

/-- The non-Gold error message f-string of `inlet`. -/
def upgradeErrorMsg (dim : String) : String :=
  "Usage limit reached: You've hit your " ++ dim ++
    " request limit. Upgrade to continue now or wait until the limit resets."

/-- `Pipeline.inlet`: admin bypass, else resolve limits, run `rate_limited`,
and either raise the group-specific message (rejection) or log the request
and return the body.  The returned `UserRequests` is the dict as left behind
by the call. -/
def inlet {α : Type} (v : Valves) (st : UserRequests) (body : α) (user : Option User)
    (now : ℤ) : UserRequests × Except PyError α :=
  if isAdmin user then (st, Except.ok body)
  else
    let uid := userId user
    let limits := get_user_limits v user
    match rate_limited st uid limits now with
    | Except.error _ => (st, Except.error PyError.typeError)
    | Except.ok (true, st2) =>
      let grp := get_user_group user
      match check_which_limit_exceeded st2 uid limits now with
      | Except.error _ => (st2, Except.error PyError.typeError)
      | Except.ok dim =>
        (st2, Except.error (PyError.exception
          (if grp = "Gold" then goldErrorMsg dim else upgradeErrorMsg dim)))
    | Except.ok (false, st2) => (log_request st2 uid now, Except.ok body)

/-- One admission check as `inlet` performs it for a non-admin user:
`rate_limited`, then `log_request` exactly on acceptance.  `some true` is
acceptance, `some false` rejection, `none` a `TypeError`. -/
def admitStep (st : UserRequests) (uid : String) (limits : Limits) (now : ℤ) :
    Option Bool × UserRequests :=
  match rate_limited st uid limits now with
  | Except.error _ => (none, st)
  | Except.ok (true, st2) => (some false, st2)
  | Except.ok (false, st2) => (some true, log_request st2 uid now)

/-- Run one admission check per timestamp, threading the dict. -/
def runAdmit (st : UserRequests) (uid : String) (limits : Limits) :
    List ℤ → List (Option Bool) × UserRequests
  | [] => ([], st)
  | t :: ts =>
    let r := admitStep st uid limits t
    let rest := runAdmit r.2 uid limits ts
    (r.1 :: rest.1, rest.2)

/-- Character-list matching: `leadMatch s p` holds when `p` matches the
leading characters of `s`. -/
def leadMatch : List Char → List Char → Bool
  | _, [] => true
  | [], _ :: _ => false
  | c :: cs, d :: ds => c == d && leadMatch cs ds

/-- `hasSub s p` holds when `p` occurs contiguously somewhere in `s`. -/
def hasSub : List Char → List Char → Bool
  | [], pat => leadMatch [] pat
  | c :: cs, pat => leadMatch (c :: cs) pat || hasSub cs pat

/-- `endsWithStr s p` holds when the string `s` ends with the string `p`. -/
def endsWithStr (s pat : String) : Bool :=
  leadMatch s.toList.reverse pat.toList.reverse

/-- The upgrade-suggestion sentence that closes every non-Gold rejection
message of `inlet`. -/
def upgradeSentence : String :=
  "Upgrade to continue now or wait until the limit resets."

/-- Valves with the Silver per-minute threshold set to 0 (a config under
which a Silver user's very first request is rejected). -/
def silverZeroValves : Valves :=
  { defaultValves with silver_requests_per_minute := some 0 }

/-- Valves with the Gold per-minute threshold set to 0 (a config under
which a Gold user's very first request is rejected). -/
def goldZeroValves : Valves :=
  { defaultValves with gold_requests_per_minute := some 0 }

/-! ### Basic lemmas about the store and the prune comprehension -/

theorem setReqs_self (st : UserRequests) (uid : String) (l : List ℤ) :
    setReqs st uid l uid = some l := by
  simp [setReqs]

theorem setReqs_setReqs (st : UserRequests) (uid : String) (l1 l2 : List ℤ) :
    setReqs (setReqs st uid l1) uid l2 = setReqs st uid l2 := by
  funext k
  by_cases h : k = uid <;> simp [setReqs, h]

theorem pruneList_of_all_kept (limits : Limits) (now : ℤ) :
    ∀ (l : List ℤ), (∀ x ∈ l, keepReq limits now x = Except.ok true) →
      pruneList limits now l = Except.ok l
  | [], _ => rfl
  | a :: t, h => by
    have ha := h a (List.mem_cons_self a t)
    have ht := pruneList_of_all_kept limits now t (fun x hx => h x (List.mem_cons_of_mem a hx))
    simp [pruneList, ha, ht]

theorem keepReq_of_mem_pruneList (limits : Limits) (now : ℤ) :
    ∀ (l l' : List ℤ), pruneList limits now l = Except.ok l' →
      ∀ x ∈ l', keepReq limits now x = Except.ok true := by
  intro l
  induction l with
  | nil =>
    intro l' h x hx
    simp only [pruneList] at h
    cases h
    cases hx
  | cons a t ih =>
    intro l' h x hx
    simp only [pruneList] at h
    cases hka : keepReq limits now a with
    | error e => rw [hka] at h; cases h
    | ok b =>
      rw [hka] at h
      cases hpt : pruneList limits now t with
      | error e => rw [hpt] at h; cases h
      | ok t2 =>
        rw [hpt] at h
        cases h
        cases b with
        | true =>
          rcases List.mem_cons.mp hx with hxa | hxt
          · rw [hxa]; exact hka
          · exact ih t2 hpt x hxt
        | false => exact ih t2 hpt x hx

theorem pruneList_idem (limits : Limits) (now : ℤ) (l l' : List ℤ)
    (h : pruneList limits now l = Except.ok l') :
    pruneList limits now l' = Except.ok l' :=
  pruneList_of_all_kept limits now l' (keepReq_of_mem_pruneList limits now l l' h)

theorem keepReq_total (limits : Limits) (now : ℤ)
    (hwf : limits.sliding_window_limit.isSome = true →
      limits.sliding_window_minutes.isSome = true) (x : ℤ) :
    ∃ b, keepReq limits now x = Except.ok b := by
  unfold keepReq
  split
  · exact ⟨true, rfl⟩
  · split
    · exact ⟨true, rfl⟩
    · cases hswl : limits.sliding_window_limit with
      | none => exact ⟨false, rfl⟩
      | some s =>
        have := hwf (by rw [hswl]; rfl)
        cases hswm : limits.sliding_window_minutes with
        | none => rw [hswm] at this; cases this
        | some wm => exact ⟨_, rfl⟩

theorem pruneList_total (limits : Limits) (now : ℤ)
    (hwf : limits.sliding_window_limit.isSome = true →
      limits.sliding_window_minutes.isSome = true) :
    ∀ (l : List ℤ), ∃ l', pruneList limits now l = Except.ok l' := by
  intro l
  induction l with
  | nil => exact ⟨[], rfl⟩
  | cons a t ih =>
    obtain ⟨b, hb⟩ := keepReq_total limits now hwf a
    obtain ⟨t2, ht⟩ := ih
    exact ⟨if b then a :: t2 else t2, by simp [pruneList, hb, ht]⟩

theorem countWithin_all (reqs : List ℤ) (now w : ℤ) (h : ∀ x ∈ reqs, now - x < w) :
    countWithin reqs now w = reqs.length := by
  unfold countWithin
  rw [List.filter_eq_self.mpr (fun a ha => decide_eq_true (h a ha))]

/-! ### Claim theorems -/

/-- C8: pruning is idempotent.  For every identity, policy and `now`, if
`prune_requests` succeeds and leaves the dict `st2`, running it again on
`st2` (same identity, policy and `now`, no request recorded in between)
returns `st2` unchanged. -/
theorem prune_requests_idem (st : UserRequests) (uid : String) (limits : Limits)
    (now : ℤ) (st2 : UserRequests)
    (h : prune_requests st uid limits now = Except.ok st2) :
    prune_requests st2 uid limits now = Except.ok st2 := by
  cases hkey : st uid with
  | none =>
    simp only [prune_requests, hkey, Except.ok.injEq] at h
    subst h
    simp [prune_requests, hkey]
  | some reqs =>
    simp only [prune_requests, hkey] at h
    cases hpl : pruneList limits now reqs with
    | error e => simp [hpl] at h
    | ok l =>
      simp only [hpl, Except.ok.injEq] at h
      subst h
      simp [prune_requests, setReqs_self, pruneList_idem limits now reqs l hpl,
        setReqs_setReqs]

/-- Witness for C8 at a concrete input: identity "u1" with history
`[0, 100]` pruned at `now = 100` under a 5-per-minute policy (the entry at
0 falls out of the minute window); re-pruning the result is the identity. -/
theorem prune_requests_idem_witness :
    prune_requests (setReqs (setReqs (fun _ => none) "u1" [0, 100]) "u1" [100]) "u1"
        ⟨some 5, none, none, none⟩ 100
      = Except.ok (setReqs (setReqs (fun _ => none) "u1" [0, 100]) "u1" [100]) :=
  prune_requests_idem (setReqs (fun _ => none) "u1" [0, 100]) "u1"
    ⟨some 5, none, none, none⟩ 100
    (setReqs (setReqs (fun _ => none) "u1" [0, 100]) "u1" [100]) rfl

/-- C5 counterexample: under a policy with all three thresholds absent,
pruning an identity with the non-empty history `[0]` does NOT leave the
history unchanged — every disjunct of the keep condition is false, so the
comprehension removes everything. -/
theorem prune_unconfigured_changes_history :
    ∃ st2, prune_requests (setReqs (fun _ => none) "u1" [0]) "u1"
        ⟨none, none, none, none⟩ 0 = Except.ok st2
      ∧ st2 "u1" ≠ (setReqs (fun _ => none) "u1" [0]) "u1" :=
  ⟨setReqs (setReqs (fun _ => none) "u1" [0]) "u1" [], rfl, by decide⟩

/-- C5 amended: under a policy in which all three thresholds
(`requests_per_minute`, `requests_per_hour`, `sliding_window_limit`) are
absent, pruning an identity with an existing history removes every entry:
the history becomes `[]` (rather than being left unchanged). -/
theorem prune_unconfigured_clears_history (st : UserRequests) (uid : String)
    (now : ℤ) (swm : Option ℤ) (reqs : List ℤ) (hst : st uid = some reqs) :
    prune_requests st uid ⟨none, none, none, swm⟩ now
      = Except.ok (setReqs st uid []) := by
  have hp : ∀ (l : List ℤ), pruneList ⟨none, none, none, swm⟩ now l = Except.ok [] := by
    intro l
    induction l with
    | nil => rfl
    | cons a t ih => simp [pruneList, keepReq, ih]
  simp [prune_requests, hst, hp]

/-- Witness for C5's amended statement at a concrete input. -/
theorem prune_unconfigured_clears_history_witness :
    prune_requests (setReqs (fun _ => none) "u2" [3, 4]) "u2"
        ⟨none, none, none, some 15⟩ 9
      = Except.ok (setReqs (setReqs (fun _ => none) "u2" [3, 4]) "u2" []) :=
  prune_unconfigured_clears_history (setReqs (fun _ => none) "u2" [3, 4]) "u2" 9
    (some 15) [3, 4] rfl

/-- C10: under a policy with `requests_per_minute = 0` (and a well-formed
sliding-window pair, as the data model requires), `rate_limited` returns
`True` for every identity and every history — the count of already-seen
requests is always `≥ 0`, so even the very first request from a fresh
identity is rejected. -/
theorem zero_minute_limit_rejects (st : UserRequests) (uid : String)
    (limits : Limits) (now : ℤ)
    (h0 : limits.requests_per_minute = some 0)
    (hwf : limits.sliding_window_limit.isSome = true →
      limits.sliding_window_minutes.isSome = true) :
    ∃ st2, rate_limited st uid limits now = Except.ok (true, st2) := by
  obtain ⟨st2, hp⟩ : ∃ st2, prune_requests st uid limits now = Except.ok st2 := by
    cases hkey : st uid with
    | none => exact ⟨st, by simp [prune_requests, hkey]⟩
    | some reqs =>
      obtain ⟨l, hl⟩ := pruneList_total limits now hwf reqs
      exact ⟨setReqs st uid l, by simp [prune_requests, hkey, hl]⟩
  have hm : minuteHit limits ((st2 uid).getD []) now = true := by
    simp only [minuteHit, h0, ge_iff_le, decide_eq_true_eq]
    exact Int.natCast_nonneg _
  exact ⟨st2, by simp [rate_limited, hp, hm]⟩

/-- Witness for C10: a fresh identity under `{requests_per_minute: 0}` has
its very first request rejected. -/
theorem zero_minute_limit_rejects_witness :
    ∃ st2, rate_limited (fun _ => none) "u1" ⟨some 0, none, none, none⟩ 0
      = Except.ok (true, st2) :=
  zero_minute_limit_rejects (fun _ => none) "u1" ⟨some 0, none, none, none⟩ 0
    rfl (by decide)

/-- C4 (code bug evaluated at the failing input): under the policy
`{requests_per_hour: 0}` with the other thresholds absent, `rate_limited`
itself produces a decision (reject), but `check_which_limit_exceeded` —
which `inlet` then calls on every rejection — hits the unguarded
comparison `requests_last_minute >= None` and raises a `TypeError`, so the
admission path does fail with an error other than `RateLimitExceeded`. -/
theorem check_type_error_on_absent_threshold :
    rate_limited (fun _ => none) "u2" ⟨none, some 0, none, none⟩ 0
        = Except.ok (true, fun _ => none)
      ∧ check_which_limit_exceeded (fun _ => none) "u2" ⟨none, some 0, none, none⟩ 0
        = Except.error () :=
  ⟨rfl, rfl⟩

/-- C3 (code bug evaluated at the spec scenario): under
`{requests_per_hour: 3}`, identity "u1": requests at t = 0, 10, 20 are
accepted, the 4th at t = 30 is rejected and the 5th at t = 3601 is
accepted again (the t = 0 entry has been pruned) — but the rejection at
t = 30 does not report the dimension "hour": `check_which_limit_exceeded`
raises a `TypeError` on the absent minute threshold before reaching the
hour check. -/
theorem hour_scenario_dimension_type_error :
    (runAdmit (fun _ => none) "u1" ⟨none, some 3, none, none⟩ [0, 10, 20, 30, 3601]).1
        = [some true, some true, some true, some false, some true]
      ∧ check_which_limit_exceeded
          (runAdmit (fun _ => none) "u1" ⟨none, some 3, none, none⟩ [0, 10, 20, 30]).2
          "u1" ⟨none, some 3, none, none⟩ 30
        = Except.error () :=
  ⟨by decide, rfl⟩

theorem log_request_getD (st : UserRequests) (uid : String) (now : ℤ) :
    ((log_request st uid now) uid).getD [] = (st uid).getD [] ++ [now] := by
  simp [log_request, setReqs]

/-- One admission step under a minute-only policy, when every entry of the
current history is within 60 seconds of `now`: the pruned history is the
full history, and the decision is `count < N`. -/
theorem admitStep_minute (uid : String) (N : ℕ) (swm : Option ℤ) (st : UserRequests)
    (h : List ℤ) (t : ℤ) (hst : (st uid).getD [] = h)
    (hin : ∀ x ∈ h, t - x < 60) :
    ∃ st2, (st2 uid).getD [] = h
      ∧ admitStep st uid ⟨some (N : ℤ), none, none, swm⟩ t
        = if h.length < N then (some true, log_request st2 uid t)
          else (some false, st2) := by
  obtain ⟨st2, hp, hst2⟩ :
      ∃ st2, prune_requests st uid ⟨some (N : ℤ), none, none, swm⟩ t = Except.ok st2
        ∧ (st2 uid).getD [] = h := by
    cases hkey : st uid with
    | none =>
      rw [hkey] at hst
      exact ⟨st, by simp [prune_requests, hkey], by rw [hkey]; exact hst⟩
    | some l =>
      have hl : l = h := by rw [hkey] at hst; simpa using hst
      subst hl
      have hkeep : ∀ x ∈ l, keepReq ⟨some (N : ℤ), none, none, swm⟩ t x = Except.ok true := by
        intro x hx
        have hx60 := hin x hx
        simp [keepReq, hx60]
      exact ⟨setReqs st uid l,
        by simp [prune_requests, hkey, pruneList_of_all_kept _ _ l hkeep],
        by simp [setReqs_self]⟩
  have hcnt : countWithin h t 60 = h.length := countWithin_all h t 60 hin
  refine ⟨st2, hst2, ?_⟩
  by_cases hN : h.length < N
  · have hm : minuteHit ⟨some (N : ℤ), none, none, swm⟩ h t = false := by
      simp only [minuteHit, hcnt]
      rw [decide_eq_false_iff_not]
      omega
    simp [admitStep, rate_limited, hp, hst2, hm, hourHit, hN]
  · have hm : minuteHit ⟨some (N : ℤ), none, none, swm⟩ h t = true := by
      simp only [minuteHit, hcnt]
      rw [decide_eq_true_eq]
      omega
    simp [admitStep, rate_limited, hp, hst2, hm, hN]

/-- The decision trace of a run under a minute-only policy starting from a
history `h` whose entries, together with all request times, lie within one
60-second span: the k-th decision is `h.length + k < N`. -/
theorem runAdmit_minute_aux (uid : String) (N : ℕ) (swm : Option ℤ) :
    ∀ (ts h : List ℤ) (st : UserRequests), (st uid).getD [] = h →
      (∀ x ∈ h ++ ts, ∀ y ∈ h ++ ts, x - y < 60) →
      (runAdmit st uid ⟨some (N : ℤ), none, none, swm⟩ ts).1
        = (List.range ts.length).map (fun k => some (decide (h.length + k < N))) := by
  intro ts
  induction ts with
  | nil => intro h st _ _; rfl
  | cons t ts ih =>
    intro h st hst hspan
    have hin : ∀ x ∈ h, t - x < 60 := fun x hx =>
      hspan t (by simp) x (by simp [hx])
    obtain ⟨st2, hst2, hstep⟩ := admitStep_minute uid N swm st h t hst hin
    by_cases hN : h.length < N
    · rw [if_pos hN] at hstep
      have hlog : ((log_request st2 uid t) uid).getD [] = h ++ [t] := by
        rw [log_request_getD, hst2]
      have hspan' : ∀ x ∈ (h ++ [t]) ++ ts, ∀ y ∈ (h ++ [t]) ++ ts, x - y < 60 := by
        intro x hx y hy
        apply hspan <;> simp only [List.mem_append, List.mem_cons] at hx hy ⊢ <;> tauto
      have hrec := ih (h ++ [t]) (log_request st2 uid t) hlog hspan'
      simp only [runAdmit, hstep]
      rw [hrec, List.length_cons, List.range_succ_eq_map, List.map_cons, List.map_map]
      congr 1
      · simp [hN]
      · apply List.map_congr_left
        intro k _
        have harith : (h ++ [t]).length + k = h.length + Nat.succ k := by
          simp [List.length_append]
          omega
        rw [harith]
        simp [Function.comp]
    · rw [if_neg hN] at hstep
      have hspan' : ∀ x ∈ h ++ ts, ∀ y ∈ h ++ ts, x - y < 60 := by
        intro x hx y hy
        apply hspan <;> simp only [List.mem_append, List.mem_cons] at hx hy ⊢ <;> tauto
      have hrec := ih h st2 hst2 hspan'
      simp only [runAdmit, hstep]
      rw [hrec, List.length_cons, List.range_succ_eq_map, List.map_cons, List.map_map]
      congr 1
      · simp [hN]
      · apply List.map_congr_left
        intro k _
        have h1 : ¬ (h.length + k < N) := by omega
        have h2 : ¬ (h.length + Nat.succ k < N) := by omega
        simp [h1, h2, Function.comp]

/-- C1: for every identity with empty history under the policy
`{requests_per_minute: N}` (N > 0, hour and sliding-window thresholds
absent), when N+1 requests arrive within one 60-second span, the first N
admission checks (`rate_limited` followed by `log_request` on acceptance)
accept and the (N+1)-th rejects. -/
theorem minute_limit_admits_first_N (uid : String) (st : UserRequests) (N : ℕ)
    (hN : 0 < N) (swm : Option ℤ) (ts : List ℤ)
    (hlen : ts.length = N + 1)
    (hspan : ∀ x ∈ ts, ∀ y ∈ ts, x - y < 60)
    (hfresh : (st uid).getD [] = []) :
    (runAdmit st uid ⟨some (N : ℤ), none, none, swm⟩ ts).1
      = List.replicate N (some true) ++ [some false] := by
  have hspan' : ∀ x ∈ ([] : List ℤ) ++ ts, ∀ y ∈ ([] : List ℤ) ++ ts, x - y < 60 := by
    simpa using hspan
  rw [runAdmit_minute_aux uid N swm ts [] st hfresh hspan', hlen,
    List.range_succ, List.map_append]
  congr 1
  · refine List.eq_replicate_iff.mpr ⟨by simp, ?_⟩
    intro b hb
    obtain ⟨k, hk, rfl⟩ := List.mem_map.mp hb
    have hkN : k < N := List.mem_range.mp hk
    simp [hkN]
  · simp

/-- Witness for C1: N = 2, three requests at t = 0, 10, 20 from a fresh
identity — the first two accepted, the third rejected. -/
theorem minute_limit_admits_first_N_witness :
    (runAdmit (fun _ => none) "u1" ⟨some (2 : ℕ), none, none, none⟩ [0, 10, 20]).1
      = List.replicate 2 (some true) ++ [some false] :=
  minute_limit_admits_first_N "u1" (fun _ => none) 2 (by decide) none [0, 10, 20]
    (by decide) (by decide) rfl

/-- C2: whenever `rate_limited` returns a decision `b` with resulting dict
`st2`, `st2` is exactly the pruned dict (the current request has not been
appended — `inlet` calls `log_request` only afterwards, and only on
acceptance), and `b` is `count ≥ limit` evaluated over the already-recorded
requests in each configured window: the decision is `True` iff some set
threshold `N` satisfies `N ≤ count`, so the request arriving when exactly
`N` requests are already in the window — the (N+1)-th overall, the
"N-th request within a limit of N" counting the recorded ones — is the one
rejected. -/
theorem rate_limited_ge_pre_log (st : UserRequests) (uid : String) (limits : Limits)
    (now : ℤ) (b : Bool) (st2 : UserRequests)
    (h : rate_limited st uid limits now = Except.ok (b, st2)) :
    prune_requests st uid limits now = Except.ok st2
    ∧ (b = true ↔
        ((∃ m, limits.requests_per_minute = some m
            ∧ m ≤ (countWithin ((st2 uid).getD []) now 60 : ℤ))
          ∨ (∃ n, limits.requests_per_hour = some n
              ∧ n ≤ (countWithin ((st2 uid).getD []) now 3600 : ℤ))
          ∨ (∃ s wm, limits.sliding_window_limit = some s
              ∧ limits.sliding_window_minutes = some wm
              ∧ s ≤ (countWithin ((st2 uid).getD []) now (wm * 60) : ℤ)))) := by
  cases hp : prune_requests st uid limits now with
  | error e => simp [rate_limited, hp] at h
  | ok st3 =>
    simp only [rate_limited, hp] at h
    by_cases hm : minuteHit limits ((st3 uid).getD []) now = true
    · simp only [hm, if_true, Except.ok.injEq, Prod.mk.injEq] at h
      obtain ⟨hb, hst⟩ := h
      subst hst
      refine ⟨rfl, ?_⟩
      rw [← hb]
      simp only [true_iff]
      left
      revert hm
      unfold minuteHit
      cases hrpm : limits.requests_per_minute with
      | none => intro hc; cases hc
      | some m =>
        intro hc
        exact ⟨m, rfl, by simpa using of_decide_eq_true hc⟩
    · rw [Bool.not_eq_true] at hm
      have hmn : ∀ m, limits.requests_per_minute = some m →
          ¬ (m ≤ (countWithin ((st3 uid).getD []) now 60 : ℤ)) := by
        intro m hrpm hle
        rw [minuteHit, hrpm] at hm
        simp only [ge_iff_le, decide_eq_false_iff_not] at hm
        exact hm hle
      by_cases hh : hourHit limits ((st3 uid).getD []) now = true
      · simp only [hm, Bool.false_eq_true, if_false, hh, if_true,
          Except.ok.injEq, Prod.mk.injEq] at h
        obtain ⟨hb, hst⟩ := h
        subst hst
        refine ⟨rfl, ?_⟩
        rw [← hb]
        simp only [true_iff]
        right; left
        revert hh
        unfold hourHit
        cases hrph : limits.requests_per_hour with
        | none => intro hc; cases hc
        | some n =>
          intro hc
          exact ⟨n, rfl, by simpa using of_decide_eq_true hc⟩
      · rw [Bool.not_eq_true] at hh
        have hhn : ∀ n, limits.requests_per_hour = some n →
            ¬ (n ≤ (countWithin ((st3 uid).getD []) now 3600 : ℤ)) := by
          intro n hrph hle
          rw [hourHit, hrph] at hh
          simp only [ge_iff_le, decide_eq_false_iff_not] at hh
          exact hh hle
        simp only [hm, Bool.false_eq_true, if_false, hh] at h
        cases hswl : limits.sliding_window_limit with
        | none =>
          simp only [hswl, Except.ok.injEq, Prod.mk.injEq] at h
          obtain ⟨hb, hst⟩ := h
          subst hst
          refine ⟨rfl, ?_⟩
          rw [← hb]
          simp only [Bool.false_eq_true, false_iff]
          rintro (⟨m, hrpm, hle⟩ | ⟨n, hrph, hle⟩ | ⟨s, wm, hs, _, _⟩)
          · exact hmn m hrpm hle
          · exact hhn n hrph hle
          · simp at hs
        | some s =>
          cases hswm : limits.sliding_window_minutes with
          | none => simp [hswl, hswm] at h
          | some wm =>
            simp only [hswl, hswm] at h
            by_cases hw : (countWithin ((st3 uid).getD []) now (wm * 60) : ℤ) ≥ s
            · rw [if_pos hw] at h
              simp only [Except.ok.injEq, Prod.mk.injEq] at h
              obtain ⟨hb, hst⟩ := h
              subst hst
              refine ⟨rfl, ?_⟩
              rw [← hb]
              simp only [true_iff]
              exact Or.inr (Or.inr ⟨s, wm, rfl, rfl, hw⟩)
            · rw [if_neg hw] at h
              simp only [Except.ok.injEq, Prod.mk.injEq] at h
              obtain ⟨hb, hst⟩ := h
              subst hst
              refine ⟨rfl, ?_⟩
              rw [← hb]
              simp only [Bool.false_eq_true, false_iff]
              rintro (⟨m, hrpm, hle⟩ | ⟨n, hrph, hle⟩ | ⟨s', wm', hs', hwm', hle⟩)
              · exact hmn m hrpm hle
              · exact hhn n hrph hle
              · simp only [Option.some.injEq] at hs' hwm'
                subst hs'
                subst hwm'
                exact hw hle

/-- Witness for C2: one already-recorded request within the minute window
and a limit of 1 — the decision is `True`, and the resulting dict is the
pruned one (the current request not yet appended). -/
theorem rate_limited_ge_pre_log_witness :
    prune_requests (setReqs (fun _ => none) "u3" [5]) "u3"
        ⟨some 1, some 2, none, none⟩ 10
      = Except.ok (setReqs (setReqs (fun _ => none) "u3" [5]) "u3" [5])
    ∧ (true = true ↔
        ((∃ m, (⟨some 1, some 2, none, none⟩ : Limits).requests_per_minute = some m
            ∧ m ≤ (countWithin ((setReqs (setReqs (fun _ => none) "u3" [5]) "u3" [5] "u3").getD [])
                    10 60 : ℤ))
          ∨ (∃ n, (⟨some 1, some 2, none, none⟩ : Limits).requests_per_hour = some n
              ∧ n ≤ (countWithin ((setReqs (setReqs (fun _ => none) "u3" [5]) "u3" [5] "u3").getD [])
                      10 3600 : ℤ))
          ∨ (∃ s wm, (⟨some 1, some 2, none, none⟩ : Limits).sliding_window_limit = some s
              ∧ (⟨some 1, some 2, none, none⟩ : Limits).sliding_window_minutes = some wm
              ∧ s ≤ (countWithin ((setReqs (setReqs (fun _ => none) "u3" [5]) "u3" [5] "u3").getD [])
                      10 (wm * 60) : ℤ)))) :=
  rate_limited_ge_pre_log (setReqs (fun _ => none) "u3" [5]) "u3"
    ⟨some 1, some 2, none, none⟩ 10 true
    (setReqs (setReqs (fun _ => none) "u3" [5]) "u3" [5]) rfl

/-- C6: a request whose user metadata has role "admin" is returned
unchanged by `inlet` and the entire `user_requests` dict is left exactly
as it was — no timestamp appended for any identity, no pruning. -/
theorem admin_bypass {α : Type} (v : Valves) (st : UserRequests) (body : α)
    (u : User) (now : ℤ) (h : u.role = some "admin") :
    inlet v st body (some u) now = (st, Except.ok body) := by
  simp [inlet, isAdmin, h]

/-- Witness for C6 at a concrete admin user and a non-trivial dict. -/
theorem admin_bypass_witness :
    inlet defaultValves (setReqs (fun _ => none) "a" [1, 2]) (0 : ℕ)
        (some ⟨some "a", some "admin", some ["Gold"]⟩) 5
      = (setReqs (fun _ => none) "a" [1, 2], Except.ok 0) :=
  admin_bypass defaultValves (setReqs (fun _ => none) "a" [1, 2]) 0
    ⟨some "a", some "admin", some ["Gold"]⟩ 5 rfl

/-- C7: a user whose groups contain both "Silver" and "Gold" resolves to
exactly the Gold policy — the four gold valve values — never the Silver
one, and `get_user_group` reports "Gold". -/
theorem gold_precedence (v : Valves) (u : User) (gs : List String)
    (hg : u.groups = some gs) (hS : gs.contains "Silver" = true)
    (hG : gs.contains "Gold" = true) :
    get_user_limits v (some u) = goldLimits v ∧ get_user_group (some u) = "Gold" := by
  have hne : gs.isEmpty = false := by
    cases gs with
    | nil => simp at hG
    | cons a t => rfl
  have hGm : "Gold" ∈ gs := by simpa using hG
  constructor
  · simp [get_user_limits, hg, hne, hGm]
  · simp [get_user_group, hg, hne, hGm]

/-- Witness for C7 with the shipped valve defaults. -/
theorem gold_precedence_witness :
    get_user_limits defaultValves (some ⟨some "u7", none, some ["Silver", "Gold"]⟩)
        = goldLimits defaultValves
      ∧ get_user_group (some ⟨some "u7", none, some ["Silver", "Gold"]⟩) = "Gold" :=
  gold_precedence defaultValves ⟨some "u7", none, some ["Silver", "Gold"]⟩
    ["Silver", "Gold"] rfl (by decide) (by decide)

/-! ### Substring lemmas for the rejection messages -/

theorem leadMatch_nil (l : List Char) : leadMatch l [] = true := by
  cases l <;> rfl

theorem leadMatch_append (t p x : List Char) (h : leadMatch t p = true) :
    leadMatch (t ++ x) p = true := by
  induction p generalizing t with
  | nil => exact leadMatch_nil _
  | cons d ds ih =>
    cases t with
    | nil => cases h
    | cons c cs =>
      simp only [leadMatch, Bool.and_eq_true] at h
      simp [leadMatch, h.1, ih cs h.2]

theorem leadMatch_take (t x p : List Char) (h : leadMatch (t ++ x) p = true) :
    leadMatch t (p.take t.length) = true := by
  induction t generalizing p with
  | nil => rfl
  | cons c cs ih =>
    cases p with
    | nil => rfl
    | cons d ds =>
      simp only [List.cons_append, leadMatch, Bool.and_eq_true] at h
      simp [List.take_succ_cons, leadMatch, h.1, ih ds h.2]

theorem leadMatch_self_append (l x : List Char) : leadMatch (l ++ x) l = true := by
  induction l with
  | nil => exact leadMatch_nil _
  | cons c cs ih => simp [leadMatch, ih]

theorem hasSub_of_lead (l p : List Char) (h : leadMatch l p = true) :
    hasSub l p = true := by
  cases l <;> simp [hasSub, h]

theorem hasSub_append_left (x y p : List Char) (h : hasSub y p = true) :
    hasSub (x ++ y) p = true := by
  induction x with
  | nil => exact h
  | cons c cs ih => simp [hasSub, ih]

theorem toList_append3 (a b c : String) :
    (a ++ b ++ c).toList = a.toList ++ (b.toList ++ c.toList) := by
  simp [String.toList, String.data_append]

/-- C9 counterexample: a Silver-tier rejection.  The raised error's only
payload is its message, the message is the fixed non-Gold template, and
the tier name "Silver" does not occur in it — the error does not carry the
tier name used. -/
theorem rejection_lacks_tier_name :
    (inlet silverZeroValves (fun _ => none) (0 : ℕ)
        (some ⟨some "s1", none, some ["Silver"]⟩) 0).2
        = Except.error (PyError.exception (upgradeErrorMsg "minute"))
      ∧ hasSub (upgradeErrorMsg "minute").toList "Silver".toList = false :=
  ⟨rfl, by decide⟩

/-- C9 amended: every rejection that surfaces an exception message (the
dimension lookup succeeded) got its dimension from
`check_which_limit_exceeded` run on the pruned dict, the message contains
that dimension, and the message ends with the upgrade suggestion
("Upgrade to continue now or wait until the limit resets.") if and only
if the user's group is not "Gold"; the tier name itself is not part of the
error. -/
theorem inlet_reject_message {α : Type} (v : Valves) (st : UserRequests) (body : α)
    (user : Option User) (now : ℤ) (st2 : UserRequests) (msg : String)
    (h : inlet v st body user now = (st2, Except.error (PyError.exception msg))) :
    (∃ dim, check_which_limit_exceeded st2 (userId user) (get_user_limits v user) now
        = Except.ok dim ∧ hasSub msg.toList dim.toList = true)
    ∧ (endsWithStr msg upgradeSentence = true ↔ get_user_group user ≠ "Gold") := by
  by_cases ha : isAdmin user = true
  · simp [inlet, ha] at h
  · cases hrl : rate_limited st (userId user) (get_user_limits v user) now with
    | error e => simp [inlet, ha, hrl] at h
    | ok p =>
      obtain ⟨bb, stx⟩ := p
      cases bb with
      | false => simp [inlet, ha, hrl] at h
      | true =>
        cases hck : check_which_limit_exceeded stx (userId user)
            (get_user_limits v user) now with
        | error e => simp [inlet, ha, hrl, hck] at h
        | ok dim =>
          simp only [inlet, ha, Bool.false_eq_true, if_false, hrl, hck,
            Prod.mk.injEq, Except.error.injEq, PyError.exception.injEq] at h
          obtain ⟨hst, hmsg⟩ := h
          subst hst
          constructor
          · refine ⟨dim, hck, ?_⟩
            rw [← hmsg]
            by_cases hg : get_user_group user = "Gold"
            · rw [if_pos hg]
              unfold goldErrorMsg
              rw [toList_append3]
              exact hasSub_append_left _ _ _
                (hasSub_of_lead _ _ (leadMatch_self_append _ _))
            · rw [if_neg hg]
              unfold upgradeErrorMsg
              rw [toList_append3]
              exact hasSub_append_left _ _ _
                (hasSub_of_lead _ _ (leadMatch_self_append _ _))
          · by_cases hg : get_user_group user = "Gold"
            · rw [if_pos hg] at hmsg
              rw [← hmsg]
              simp only [hg, ne_eq, not_true_eq_false, iff_false]
              intro hend
              unfold endsWithStr goldErrorMsg at hend
              rw [toList_append3] at hend
              simp only [List.reverse_append, List.append_assoc] at hend
              have htake := leadMatch_take _ _ _ hend
              exact absurd htake (by decide)
            · rw [if_neg hg] at hmsg
              rw [← hmsg]
              simp only [ne_eq, hg, not_false_eq_true, iff_true]
              unfold endsWithStr upgradeErrorMsg
              rw [toList_append3]
              simp only [List.reverse_append, List.append_assoc]
              exact leadMatch_append _ _ _ (by decide)

/-- Witness for C9's amended statement: a Gold-tier rejection under a
zero Gold minute threshold — the message names the dimension and does not
end with the upgrade suggestion. -/
theorem inlet_reject_message_witness :
    (∃ dim, check_which_limit_exceeded (fun _ => none)
        (userId (some ⟨some "g1", none, some ["Gold"]⟩))
        (get_user_limits goldZeroValves (some ⟨some "g1", none, some ["Gold"]⟩)) 0
        = Except.ok dim
        ∧ hasSub (goldErrorMsg "minute").toList dim.toList = true)
    ∧ (endsWithStr (goldErrorMsg "minute") upgradeSentence = true
        ↔ get_user_group (some ⟨some "g1", none, some ["Gold"]⟩) ≠ "Gold") :=
  inlet_reject_message goldZeroValves (fun _ => none) (0 : ℕ)
    (some ⟨some "g1", none, some ["Gold"]⟩) 0 (fun _ => none)
    (goldErrorMsg "minute") rfl

end RateLimitFilter
